import Mathlib

/-!
Verification of the typing-practice application ("Zen Flow").

This file shallowly embeds the parts of the code base that the checked
properties talk about:

* `src/core/timing/wpm.ts` — the `calculateWPM` / `calculateAccuracy`
  formulas and the `TimingSession` state transitions.  JavaScript numbers
  are modelled as `Int` (counters, millisecond timestamps) and exact `ℚ`
  arithmetic (the WPM/accuracy formulas); `Math.round` is Mathlib's
  `round` (round half toward positive infinity), `Math.max` is `max`.
  `Date.now()` is an external input, so every transition that reads the
  clock takes the current time `now : Int` as an explicit argument.
  Fallible Effect-valued functions are modelled with `Except`.

* `src/core/keyboard/layout.ts` and `src/core/words/filter.ts` — the
  hand classification of keys and words.

* The `TypingTest` component's keystroke reducer (`handleKeyDown`) and
  its derived display statistics.  The reducer is a pure function
  `(state, key, now) → state`; the two queued `setState` updater calls of
  the source (lazy timer start, then the backspace/character update) are
  composed in order, the second seeing the output of the first.  The
  JavaScript `Map<number, boolean>` of typed positions is modelled
  extensionally as `Nat → Option Bool`.
-/

/-- Model of `TimingError` from `wpm.ts` (`Data.TaggedError` with a message). -/
structure TimingError where
  message : String
deriving DecidableEq, Repr

/-- Standard: 5 characters = 1 word (`CHARS_PER_WORD` in `wpm.ts`). -/
def CHARS_PER_WORD : ℚ := 5

/-- Model of `calculateWPM` from `wpm.ts`: fails when `durationMs ≤ 0`; returns 0
when `characterCount == 0`; otherwise `round((count/5) / (ms/60000))`. -/
def calculateWPM (characterCount durationMs : Int) : Except TimingError Int :=
  if durationMs ≤ 0 then
    Except.error ⟨ "Duration must be positive" ⟩
  else if characterCount = 0 then
    Except.ok 0
  else
    let words : ℚ := (characterCount : ℚ) / CHARS_PER_WORD
    let minutes : ℚ := (durationMs : ℚ) / 60000
    Except.ok (round (words / minutes))

/-- Model of `calculateAccuracy` from `wpm.ts`: fails when `totalCharacters == 0`;
otherwise `max(0, round((total - errors)/total * 100))`. -/
def calculateAccuracy (totalCharacters errorCount : Int) : Except TimingError Int :=
  if totalCharacters = 0 then
    Except.error ⟨ "Total characters must be positive" ⟩
  else
    let accuracy : ℚ := ((totalCharacters : ℚ) - (errorCount : ℚ)) / (totalCharacters : ℚ) * 100
    Except.ok (max 0 (round accuracy))

/-- Model of `TimingSessionState` from `wpm.ts`. -/
structure TimingSessionState where
  isRunning : Bool
  startTime : Option Int
  endTime : Option Int
  characterCount : Nat
  errorCount : Nat
deriving DecidableEq, Repr

namespace TimingSession

/-- Model of `TimingSession.create`. -/
def create : TimingSessionState :=
  { isRunning := false
    startTime := none
    endTime := none
    characterCount := 0
    errorCount := 0 }

/-- Model of `TimingSession.start`: sets `isRunning`, stamps `startTime` with the
current time (`Date.now()`, the explicit `now` argument) and clears
`endTime`. -/
def start (session : TimingSessionState) (now : Int) : TimingSessionState :=
  { session with isRunning := true, startTime := some now, endTime := none }

/-- Model of `TimingSession.stop`: clears `isRunning` and stamps `endTime`. -/
def stop (session : TimingSessionState) (now : Int) : TimingSessionState :=
  { session with isRunning := false, endTime := some now }

/-- Model of `TimingSession.getDuration`: 0 if never started, otherwise
`(endTime ?? now) - startTime`. -/
def getDuration (session : TimingSessionState) (now : Int) : Int :=
  match session.startTime with
  | none => 0
  | some st => session.endTime.getD now - st

/-- Model of `TimingSession.addCharacter`: always increments `characterCount`;
increments `errorCount` iff the keystroke was incorrect. -/
def addCharacter (session : TimingSessionState) (isCorrect : Bool) : TimingSessionState :=
  { session with
    characterCount := session.characterCount + 1
    errorCount := session.errorCount + (if isCorrect then 0 else 1) }

/-- Model of `TimingSession.reset`. -/
def reset : TimingSessionState := create

end TimingSession

/-- Model of `Hand` from `layout.ts`. -/
inductive Hand where
  | left
  | right
deriving DecidableEq, Repr

/-- Model of `LEFT_HAND_KEYS` from `layout.ts`. -/
def LEFT_HAND_KEYS : List Char :=
  ['q', 'w', 'e', 'r', 't', 'a', 's', 'd', 'f', 'g', 'z', 'x', 'c', 'v', 'b']

/-- Model of `RIGHT_HAND_KEYS` from `layout.ts`. -/
def RIGHT_HAND_KEYS : List Char :=
  ['y', 'u', 'i', 'o', 'p', 'h', 'j', 'k', 'l', 'n', 'm']

/-- Model of `getHandForKey` from `layout.ts`: lower-cases the key and looks it up
in the two hand sets. -/
def getHandForKey (key : Char) : Option Hand :=
  let lowerKey := key.toLower
  if LEFT_HAND_KEYS.contains lowerKey then some Hand.left
  else if RIGHT_HAND_KEYS.contains lowerKey then some Hand.right
  else none

/-- Model of `isLeftHandWord` from `filter.ts`: false for the empty word, otherwise
every character of the lower-cased word (the source spreads
`word.toLowerCase()` into its characters) maps to the left hand. -/
def isLeftHandWord (word : String) : Bool :=
  if word.length = 0 then false
  else (word.data.map Char.toLower).all fun c => getHandForKey c == some Hand.left

/-- Model of `isRightHandWord` from `filter.ts`. -/
def isRightHandWord (word : String) : Bool :=
  if word.length = 0 then false
  else (word.data.map Char.toLower).all fun c => getHandForKey c == some Hand.right

/-- Model of `isSingleHandWord` from `filter.ts`: left wins over right; `none`
when the word is typable by neither single hand. -/
def isSingleHandWord (word : String) : Option Hand :=
  if isLeftHandWord word then some Hand.left
  else if isRightHandWord word then some Hand.right
  else none

/-- Model of `Mode` from the `TypingTest` component. -/
inductive Mode where
  | all
  | left
  | right
deriving DecidableEq, Repr

/-- A keyboard event as seen by `handleKeyDown`: a single-character key
(`e.key.length === 1`), the recognized `"Backspace"` key, or any other
key (multi-character named keys such as Shift/Enter, which fall through
the length check). -/
inductive Key where
  | char (c : Char)
  | backspace
  | other
deriving DecidableEq, Repr

/-- The `TestState` of the `TypingTest` component.  The JavaScript
`Map<number, boolean>` `typedChars` is modelled extensionally. -/
structure TestState where
  mode : Mode
  words : List String
  text : List Char
  currentPosition : Nat
  typedChars : Nat → Option Bool
  session : TimingSessionState
  isComplete : Bool
  isFocused : Bool
  isLoading : Bool
  fetchError : Option String

/-- Model of `new Map(prev.typedChars)` followed by `.set(p, b)`. -/
def mapSet (m : Nat → Option Bool) (p : Nat) (b : Bool) : Nat → Option Bool :=
  fun q => if q = p then some b else m q

/-- Model of `new Map(prev.typedChars)` followed by `.delete(p)`. -/
def mapDelete (m : Nat → Option Bool) (p : Nat) : Nat → Option Bool :=
  fun q => if q = p then none else m q

/-- Model of `words.join(" ")` as a character sequence. -/
def joinWords : List String → List Char
  | [] => []
  | [w] => w.data
  | w :: ws => w.data ++ ' ' :: joinWords ws

/-- Model of `initialState(mode)` from the `TypingTest` component, with the drawn
word list passed explicitly (the source draws it from a cache or a
fallback table; word drawing is outside the reducer being verified). -/
def initialState (mode : Mode) (words : List String) : TestState :=
  { mode := mode
    words := words
    text := joinWords words
    currentPosition := 0
    typedChars := fun _ => none
    session := TimingSession.create
    isComplete := false
    isFocused := false
    isLoading := true
    fetchError := none }

/-- The first `setState` updater of `handleKeyDown`: start the timer on
the first keystroke (`!prev.session.isRunning && !prev.isComplete`). -/
def startIfIdle (s : TestState) (now : Int) : TestState :=
  if !s.session.isRunning && !s.isComplete then
    { s with session := TimingSession.start s.session now }
  else s

/-- The backspace updater of `handleKeyDown`: if the cursor is positive,
step it back one and delete the log entry at the vacated position. -/
def backspaceStep (s : TestState) : TestState :=
  if s.currentPosition > 0 then
    { s with
      currentPosition := s.currentPosition - 1
      typedChars := mapDelete s.typedChars (s.currentPosition - 1) }
  else s

/-- The single-character updater of `handleKeyDown`: no-op at the end of
the text; otherwise compare the key with the expected character, record
the outcome, feed it to the timing session and advance the cursor,
stopping the session and completing the test when the new cursor reaches
the end of the text. -/
def charStep (s : TestState) (c : Char) (now : Int) : TestState :=
  if s.currentPosition ≥ s.text.length then s
  else
    let expectedChar := s.text.getD s.currentPosition ' '
    let isCorrect := c == expectedChar
    let newTypedChars := mapSet s.typedChars s.currentPosition isCorrect
    let newSession := TimingSession.addCharacter s.session isCorrect
    let nextPosition := s.currentPosition + 1
    if nextPosition ≥ s.text.length then
      { s with
        currentPosition := nextPosition
        typedChars := newTypedChars
        session := TimingSession.stop newSession now
        isComplete := true }
    else
      { s with
        currentPosition := nextPosition
        typedChars := newTypedChars
        session := newSession }

/-- Model of `handleKeyDown` of the `TypingTest` component as a pure reducer:
returns the state unchanged when the test is already complete; otherwise
applies the lazy timer start followed by the branch for the pressed key.
(The two `setState` calls of the source are queued updaters: the second
sees the state produced by the first.) -/
def handleKeyDown (s : TestState) (k : Key) (now : Int) : TestState :=
  if s.isComplete then s
  else
    match k with
    | Key.backspace => backspaceStep (startIfIdle s now)
    | Key.char c => charStep (startIfIdle s now) c now
    | Key.other => startIfIdle s now

/-- Fold a list of timestamped key events through the reducer. -/
def processEvents (s : TestState) (evs : List (Key × Int)) : TestState :=
  evs.foldl (fun acc e => handleKeyDown acc e.1 e.2) s

/-- Model of `const duration = TimingSession.getDuration(state.session)` of the
component body, with the wall clock explicit. -/
def displayDuration (s : TestState) (now : Int) : Int :=
  TimingSession.getDuration s.session now

/-- Model of `const correctChars = characterCount - errorCount` (JavaScript
subtraction, so modelled on `Int`). -/
def correctChars (s : TestState) : Int :=
  (s.session.characterCount : Int) - (s.session.errorCount : Int)

/-- The component's `grossWpm` derivation: guarded by
`characterCount > 0`, duration floored at 1 ms.  The guarded
`Effect.runSync` is modelled by `Except.toOption`; the guard makes it
always `some`. -/
def grossWpm (s : TestState) (now : Int) : Option Int :=
  if s.session.characterCount > 0 then
    (calculateWPM (s.session.characterCount : Int) (max (displayDuration s now) 1)).toOption
  else some 0

/-- The component's `netWpm` derivation (correct characters only). -/
def netWpm (s : TestState) (now : Int) : Option Int :=
  if correctChars s > 0 then
    (calculateWPM (correctChars s) (max (displayDuration s now) 1)).toOption
  else some 0

/-- The component's `accuracy` derivation: display default 100 before the
first recorded character. -/
def displayAccuracy (s : TestState) : Option Int :=
  if s.session.characterCount > 0 then
    (calculateAccuracy (s.session.characterCount : Int) (s.session.errorCount : Int)).toOption
  else some 100

/-- Reachability of a `TestState` from a fresh session by keystroke
events alone (the reducer applied with arbitrary keys and clock
readings). -/
inductive Reachable (mode : Mode) (words : List String) : TestState → Prop
  | init : Reachable mode words (initialState mode words)
  | step (s : TestState) (k : Key) (now : Int) :
      Reachable mode words s → Reachable mode words (handleKeyDown s k now)

/-! ### Helper lemmas about the reducer's step functions -/

theorem startIfIdle_mode (s : TestState) (now : Int) : (startIfIdle s now).mode = s.mode := by
  unfold startIfIdle; split <;> rfl

theorem startIfIdle_words (s : TestState) (now : Int) : (startIfIdle s now).words = s.words := by
  unfold startIfIdle; split <;> rfl

theorem startIfIdle_text (s : TestState) (now : Int) : (startIfIdle s now).text = s.text := by
  unfold startIfIdle; split <;> rfl

theorem startIfIdle_currentPosition (s : TestState) (now : Int) :
    (startIfIdle s now).currentPosition = s.currentPosition := by
  unfold startIfIdle; split <;> rfl

theorem startIfIdle_typedChars (s : TestState) (now : Int) :
    (startIfIdle s now).typedChars = s.typedChars := by
  unfold startIfIdle; split <;> rfl

theorem startIfIdle_isComplete (s : TestState) (now : Int) :
    (startIfIdle s now).isComplete = s.isComplete := by
  unfold startIfIdle; split <;> rfl

theorem startIfIdle_isFocused (s : TestState) (now : Int) :
    (startIfIdle s now).isFocused = s.isFocused := by
  unfold startIfIdle; split <;> rfl

theorem startIfIdle_isLoading (s : TestState) (now : Int) :
    (startIfIdle s now).isLoading = s.isLoading := by
  unfold startIfIdle; split <;> rfl

theorem startIfIdle_fetchError (s : TestState) (now : Int) :
    (startIfIdle s now).fetchError = s.fetchError := by
  unfold startIfIdle; split <;> rfl

theorem startIfIdle_characterCount (s : TestState) (now : Int) :
    (startIfIdle s now).session.characterCount = s.session.characterCount := by
  unfold startIfIdle TimingSession.start; split <;> rfl

theorem startIfIdle_errorCount (s : TestState) (now : Int) :
    (startIfIdle s now).session.errorCount = s.session.errorCount := by
  unfold startIfIdle TimingSession.start; split <;> rfl

theorem startIfIdle_of_running (s : TestState) (now : Int)
    (h : s.session.isRunning = true) : startIfIdle s now = s := by
  unfold startIfIdle; simp [h]

theorem startIfIdle_isRunning (s : TestState) (now : Int) (h : s.isComplete = false) :
    (startIfIdle s now).session.isRunning = true := by
  unfold startIfIdle TimingSession.start
  split
  · rfl
  · rename_i hcond
    simp [h] at hcond
    exact hcond

theorem startIfIdle_startTime_of_running (s : TestState) (now : Int)
    (h : s.session.isRunning = true) :
    (startIfIdle s now).session.startTime = s.session.startTime := by
  rw [startIfIdle_of_running s now h]

theorem backspaceStep_frame (s : TestState) :
    (backspaceStep s).mode = s.mode ∧ (backspaceStep s).words = s.words ∧
    (backspaceStep s).text = s.text ∧ (backspaceStep s).session = s.session ∧
    (backspaceStep s).isComplete = s.isComplete ∧ (backspaceStep s).isFocused = s.isFocused ∧
    (backspaceStep s).isLoading = s.isLoading ∧ (backspaceStep s).fetchError = s.fetchError := by
  unfold backspaceStep; split <;> exact ⟨rfl, rfl, rfl, rfl, rfl, rfl, rfl, rfl⟩

theorem backspaceStep_of_pos (s : TestState) (h : 0 < s.currentPosition) :
    backspaceStep s =
      { s with
        currentPosition := s.currentPosition - 1
        typedChars := mapDelete s.typedChars (s.currentPosition - 1) } := by
  unfold backspaceStep; rw [if_pos h]

theorem backspaceStep_of_zero (s : TestState) (h : s.currentPosition = 0) :
    backspaceStep s = s := by
  unfold backspaceStep; rw [if_neg (by omega)]

theorem charStep_frame (s : TestState) (c : Char) (now : Int) :
    (charStep s c now).mode = s.mode ∧ (charStep s c now).words = s.words ∧
    (charStep s c now).text = s.text ∧ (charStep s c now).isFocused = s.isFocused ∧
    (charStep s c now).isLoading = s.isLoading ∧
    (charStep s c now).fetchError = s.fetchError := by
  unfold charStep
  split
  · exact ⟨rfl, rfl, rfl, rfl, rfl, rfl⟩
  · dsimp only
    split <;> exact ⟨rfl, rfl, rfl, rfl, rfl, rfl⟩

theorem charStep_of_end (s : TestState) (c : Char) (now : Int)
    (h : s.currentPosition ≥ s.text.length) : charStep s c now = s := by
  unfold charStep; rw [if_pos h]

theorem charStep_complete (s : TestState) (c : Char) (now : Int)
    (h : s.currentPosition + 1 = s.text.length) :
    charStep s c now =
      { s with
        currentPosition := s.currentPosition + 1
        typedChars := mapSet s.typedChars s.currentPosition
          (c == s.text.getD s.currentPosition ' ')
        session := TimingSession.stop
          (TimingSession.addCharacter s.session (c == s.text.getD s.currentPosition ' ')) now
        isComplete := true } := by
  have h1 : ¬ s.currentPosition ≥ s.text.length := by omega
  have h2 : s.currentPosition + 1 ≥ s.text.length := by omega
  unfold charStep
  rw [if_neg h1]
  dsimp only
  rw [if_pos h2]

theorem charStep_mid (s : TestState) (c : Char) (now : Int)
    (h : s.currentPosition + 1 < s.text.length) :
    charStep s c now =
      { s with
        currentPosition := s.currentPosition + 1
        typedChars := mapSet s.typedChars s.currentPosition
          (c == s.text.getD s.currentPosition ' ')
        session := TimingSession.addCharacter s.session
          (c == s.text.getD s.currentPosition ' ') } := by
  have h1 : ¬ s.currentPosition ≥ s.text.length := by omega
  have h2 : ¬ s.currentPosition + 1 ≥ s.text.length := by omega
  unfold charStep
  rw [if_neg h1]
  dsimp only
  rw [if_neg h2]

theorem handleKeyDown_of_complete (s : TestState) (k : Key) (now : Int)
    (h : s.isComplete = true) : handleKeyDown s k now = s := by
  unfold handleKeyDown; rw [if_pos h]

theorem handleKeyDown_char_eq (s : TestState) (c : Char) (now : Int)
    (h : s.isComplete = false) :
    handleKeyDown s (Key.char c) now = charStep (startIfIdle s now) c now := by
  unfold handleKeyDown; rw [if_neg (by simp [h])]

theorem handleKeyDown_backspace_eq (s : TestState) (now : Int)
    (h : s.isComplete = false) :
    handleKeyDown s Key.backspace now = backspaceStep (startIfIdle s now) := by
  unfold handleKeyDown; rw [if_neg (by simp [h])]

theorem handleKeyDown_other_eq (s : TestState) (now : Int)
    (h : s.isComplete = false) :
    handleKeyDown s Key.other now = startIfIdle s now := by
  unfold handleKeyDown; rw [if_neg (by simp [h])]

theorem getDuration_frozen (sess : TimingSessionState) (h : sess.endTime.isSome = true)
    (n1 n2 : Int) :
    TimingSession.getDuration sess n1 = TimingSession.getDuration sess n2 := by
  unfold TimingSession.getDuration
  cases hst : sess.startTime with
  | none => rfl
  | some st =>
    cases he : sess.endTime with
    | none => rw [he] at h; simp at h
    | some e => simp [he]

/-- Running any nonempty list of single-character events whose length
exactly fills the remaining text completes the test: cursor lands at the
end of the text, the completion flag is set and the timing session is
stopped with an end timestamp. -/
theorem processChars_drives_completion :
    ∀ (evs : List (Char × Int)) (s : TestState),
      s.isComplete = false →
      s.currentPosition + evs.length = s.text.length →
      evs ≠ [] →
      (processEvents s (evs.map fun p => (Key.char p.1, p.2))).isComplete = true ∧
      (processEvents s (evs.map fun p => (Key.char p.1, p.2))).currentPosition = s.text.length ∧
      (processEvents s (evs.map fun p => (Key.char p.1, p.2))).session.isRunning = false ∧
      (processEvents s (evs.map fun p => (Key.char p.1, p.2))).session.endTime.isSome = true := by
  intro evs
  induction evs with
  | nil => intro s _ _ hne; exact absurd rfl hne
  | cons e rest ih =>
    intro s hc hlen _
    have hstep :
        processEvents s (((e :: rest).map fun p => (Key.char p.1, p.2))) =
          processEvents (handleKeyDown s (Key.char e.1) e.2)
            (rest.map fun p => (Key.char p.1, p.2)) := rfl
    rw [hstep, handleKeyDown_char_eq s e.1 e.2 hc]
    have hpos := startIfIdle_currentPosition s e.2
    have htext := startIfIdle_text s e.2
    cases rest with
    | nil =>
      have hone : s.currentPosition + 1 = s.text.length := by
        simpa using hlen
      have hcomp : (startIfIdle s e.2).currentPosition + 1 =
          (startIfIdle s e.2).text.length := by
        rw [hpos, htext]; exact hone
      rw [charStep_complete (startIfIdle s e.2) e.1 e.2 hcomp]
      refine ⟨rfl, ?_, rfl, rfl⟩
      show (startIfIdle s e.2).currentPosition + 1 = s.text.length
      rw [hpos]; exact hone
    | cons e2 rest2 =>
      have hmid : (startIfIdle s e.2).currentPosition + 1 <
          (startIfIdle s e.2).text.length := by
        rw [hpos, htext]
        have : (e2 :: rest2).length = rest2.length + 1 := rfl
        simp [List.length_cons] at hlen
        omega
      rw [charStep_mid (startIfIdle s e.2) e.1 e.2 hmid]
      have hic : (startIfIdle s e.2).isComplete = false := by
        rw [startIfIdle_isComplete]; exact hc
      have h := ih
        { startIfIdle s e.2 with
          currentPosition := (startIfIdle s e.2).currentPosition + 1
          typedChars := mapSet (startIfIdle s e.2).typedChars
            (startIfIdle s e.2).currentPosition
            (e.1 == (startIfIdle s e.2).text.getD (startIfIdle s e.2).currentPosition ' ')
          session := TimingSession.addCharacter (startIfIdle s e.2).session
            (e.1 == (startIfIdle s e.2).text.getD (startIfIdle s e.2).currentPosition ' ') }
        hic
        (by
          show (startIfIdle s e.2).currentPosition + 1 + (e2 :: rest2).length =
            (startIfIdle s e.2).text.length
          rw [hpos, htext]
          simp [List.length_cons] at hlen ⊢
          omega)
        (by simp)
      refine ⟨h.1, ?_, h.2.2.1, h.2.2.2⟩
      rw [h.2.1]
      show (startIfIdle s e.2).text.length = s.text.length
      rw [htext]

/-- C1: for a canonical text of length N (nonempty, as the canonical
text of a session always is), exactly N single-character keystroke
events — any mix of correct and incorrect characters, no backspaces —
drive the fresh session (cursor 0, empty log) to `isComplete = true`
with the cursor at N and a stopped, frozen timing session (not running,
end timestamp recorded, duration independent of the clock); and once
complete, every further keystroke event returns the state unchanged. -/
theorem typing_completes_after_length_events (mode : Mode) (words : List String)
    (evs : List (Char × Int))
    (hne : joinWords words ≠ [])
    (hlen : evs.length = (joinWords words).length) :
    (processEvents (initialState mode words) (evs.map fun p => (Key.char p.1, p.2))).isComplete
        = true ∧
    (processEvents (initialState mode words)
        (evs.map fun p => (Key.char p.1, p.2))).currentPosition = (joinWords words).length ∧
    (processEvents (initialState mode words)
        (evs.map fun p => (Key.char p.1, p.2))).session.isRunning = false ∧
    (processEvents (initialState mode words)
        (evs.map fun p => (Key.char p.1, p.2))).session.endTime.isSome = true ∧
    (∀ n1 n2 : Int,
      TimingSession.getDuration
          (processEvents (initialState mode words)
            (evs.map fun p => (Key.char p.1, p.2))).session n1 =
        TimingSession.getDuration
          (processEvents (initialState mode words)
            (evs.map fun p => (Key.char p.1, p.2))).session n2) ∧
    (∀ (k : Key) (t : Int),
      handleKeyDown
          (processEvents (initialState mode words) (evs.map fun p => (Key.char p.1, p.2))) k t =
        processEvents (initialState mode words) (evs.map fun p => (Key.char p.1, p.2))) := by
  have hevs : evs ≠ [] := by
    intro h
    rw [h] at hlen
    exact hne (List.length_eq_zero.mp hlen.symm)
  have h := processChars_drives_completion evs (initialState mode words) rfl
    (by
      show 0 + evs.length = (joinWords words).length
      simpa using hlen)
    hevs
  refine ⟨h.1, h.2.1, h.2.2.1, h.2.2.2, ?_, ?_⟩
  · intro n1 n2
    exact getDuration_frozen _ h.2.2.2 n1 n2
  · intro k t
    exact handleKeyDown_of_complete _ k t h.1

/-- Witness for C1 at the canonical text "ab" with one correct and one
incorrect keystroke. -/
theorem typing_completes_after_length_events_witness :
    (processEvents (initialState Mode.all ([ "ab" ]))
        (([ ('a', 3), ('q', 4) ] : List (Char × Int)).map fun p => (Key.char p.1, p.2))).isComplete
        = true ∧
    (processEvents (initialState Mode.all ([ "ab" ]))
        (([ ('a', 3), ('q', 4) ] : List (Char × Int)).map
          fun p => (Key.char p.1, p.2))).currentPosition = (joinWords ([ "ab" ])).length ∧
    (processEvents (initialState Mode.all ([ "ab" ]))
        (([ ('a', 3), ('q', 4) ] : List (Char × Int)).map
          fun p => (Key.char p.1, p.2))).session.isRunning = false ∧
    TimingSession.getDuration
        (processEvents (initialState Mode.all ([ "ab" ]))
          (([ ('a', 3), ('q', 4) ] : List (Char × Int)).map
            fun p => (Key.char p.1, p.2))).session 7 =
      TimingSession.getDuration
        (processEvents (initialState Mode.all ([ "ab" ]))
          (([ ('a', 3), ('q', 4) ] : List (Char × Int)).map
            fun p => (Key.char p.1, p.2))).session 8 ∧
    handleKeyDown
        (processEvents (initialState Mode.all ([ "ab" ]))
          (([ ('a', 3), ('q', 4) ] : List (Char × Int)).map
            fun p => (Key.char p.1, p.2))) Key.backspace 9 =
      processEvents (initialState Mode.all ([ "ab" ]))
        (([ ('a', 3), ('q', 4) ] : List (Char × Int)).map fun p => (Key.char p.1, p.2)) := by
  have h := typing_completes_after_length_events Mode.all ([ "ab" ])
    ([ ('a', 3), ('q', 4) ]) (by decide) (by decide)
  exact ⟨h.1, h.2.1, h.2.2.1, h.2.2.2.2.1 7 8, h.2.2.2.2.2 Key.backspace 9⟩

/-- One reducer step preserves the log/cursor invariant: a position has a
recorded outcome exactly when it lies strictly behind the cursor. -/
theorem invariant_step (s : TestState) (k : Key) (now : Int)
    (h : ∀ p, ((s.typedChars p).isSome = true ↔ p < s.currentPosition)) :
    ∀ p, (((handleKeyDown s k now).typedChars p).isSome = true ↔
      p < (handleKeyDown s k now).currentPosition) := by
  by_cases hc : s.isComplete = true
  · rw [handleKeyDown_of_complete s k now hc]; exact h
  · have hc' : s.isComplete = false := by
      revert hc; cases s.isComplete <;> simp
    cases k with
    | other =>
      rw [handleKeyDown_other_eq s now hc']
      intro p
      rw [startIfIdle_typedChars, startIfIdle_currentPosition]
      exact h p
    | backspace =>
      rw [handleKeyDown_backspace_eq s now hc']
      by_cases hp : 0 < (startIfIdle s now).currentPosition
      · rw [backspaceStep_of_pos _ hp]
        intro p
        dsimp only
        rw [startIfIdle_typedChars, startIfIdle_currentPosition] at *
        dsimp only [mapDelete]
        split
        · rename_i heq
          simp only [Option.isSome_none, Bool.false_eq_true, false_iff]
          omega
        · rename_i hne
          rw [h p]
          omega
      · rw [backspaceStep_of_zero _ (by omega)]
        intro p
        rw [startIfIdle_typedChars, startIfIdle_currentPosition]
        exact h p
    | char c =>
      rw [handleKeyDown_char_eq s c now hc']
      by_cases hend : (startIfIdle s now).currentPosition ≥ (startIfIdle s now).text.length
      · rw [charStep_of_end _ c now hend]
        intro p
        rw [startIfIdle_typedChars, startIfIdle_currentPosition]
        exact h p
      · by_cases hlast : (startIfIdle s now).currentPosition + 1 ≥ (startIfIdle s now).text.length
        · rw [charStep_complete _ c now (by omega)]
          intro p
          dsimp only
          rw [startIfIdle_typedChars, startIfIdle_currentPosition] at *
          dsimp only [mapSet]
          split
          · rename_i heq
            simp only [Option.isSome_some, true_iff]
            omega
          · rename_i hne
            rw [h p]
            omega
        · rw [charStep_mid _ c now (by omega)]
          intro p
          dsimp only
          rw [startIfIdle_typedChars, startIfIdle_currentPosition] at *
          dsimp only [mapSet]
          split
          · rename_i heq
            simp only [Option.isSome_some, true_iff]
            omega
          · rename_i hne
            rw [h p]
            omega

/-- C3: in every session state reachable from the fresh state by
keystroke events, a position has an entry in the keystroke log iff it is
strictly below the cursor; moreover (on a non-complete state) a
backspace erases the log entry at the vacated position, and a character
event records exactly one entry — the comparison outcome at the old
cursor position — leaving every other position's entry unchanged. -/
theorem reachable_log_iff_behind_cursor (mode : Mode) (words : List String)
    (s : TestState) (h : Reachable mode words s) :
    (∀ p, ((s.typedChars p).isSome = true ↔ p < s.currentPosition)) ∧
    (∀ now : Int, s.isComplete = false → 0 < s.currentPosition →
      (handleKeyDown s Key.backspace now).typedChars (s.currentPosition - 1) = none ∧
      (handleKeyDown s Key.backspace now).currentPosition = s.currentPosition - 1) ∧
    (∀ (now : Int) (c : Char), s.isComplete = false →
      s.currentPosition < s.text.length →
      (handleKeyDown s (Key.char c) now).typedChars s.currentPosition =
        some (c == s.text.getD s.currentPosition ' ') ∧
      (∀ q, q ≠ s.currentPosition →
        (handleKeyDown s (Key.char c) now).typedChars q = s.typedChars q)) := by
  have hinv : ∀ p, ((s.typedChars p).isSome = true ↔ p < s.currentPosition) := by
    induction h with
    | init => intro p; simp [initialState]
    | step s' k now _ ih => exact invariant_step s' k now ih
  refine ⟨hinv, ?_, ?_⟩
  · intro now hc hp
    rw [handleKeyDown_backspace_eq s now hc]
    have hp' : 0 < (startIfIdle s now).currentPosition := by
      rw [startIfIdle_currentPosition]; exact hp
    rw [backspaceStep_of_pos _ hp']
    dsimp only
    rw [startIfIdle_typedChars, startIfIdle_currentPosition]
    exact ⟨by dsimp only [mapDelete]; rw [if_pos rfl], rfl⟩
  · intro now c hc hlt
    rw [handleKeyDown_char_eq s c now hc]
    have hlt' : ¬ (startIfIdle s now).currentPosition ≥ (startIfIdle s now).text.length := by
      rw [startIfIdle_currentPosition, startIfIdle_text]; omega
    by_cases hlast :
        (startIfIdle s now).currentPosition + 1 ≥ (startIfIdle s now).text.length
    · rw [charStep_complete _ c now (by omega)]
      dsimp only
      rw [startIfIdle_typedChars, startIfIdle_currentPosition, startIfIdle_text]
      constructor
      · dsimp only [mapSet]; rw [if_pos rfl]
      · intro q hq
        dsimp only [mapSet]; rw [if_neg hq]
    · rw [charStep_mid _ c now (by omega)]
      dsimp only
      rw [startIfIdle_typedChars, startIfIdle_currentPosition, startIfIdle_text]
      constructor
      · dsimp only [mapSet]; rw [if_pos rfl]
      · intro q hq
        dsimp only [mapSet]; rw [if_neg hq]

/-- Witness for C3 after one keystroke on the canonical text "ab". -/
theorem reachable_log_iff_behind_cursor_witness :
    (((handleKeyDown (initialState Mode.all ([ "ab" ])) (Key.char 'a') 0).typedChars 0).isSome
        = true ↔
      0 < (handleKeyDown (initialState Mode.all ([ "ab" ])) (Key.char 'a') 0).currentPosition) :=
  (reachable_log_iff_behind_cursor Mode.all ([ "ab" ])
    (handleKeyDown (initialState Mode.all ([ "ab" ])) (Key.char 'a') 0)
    (Reachable.step _ (Key.char 'a') 0 Reachable.init)).1 0

theorem addCharacter_isRunning (sess : TimingSessionState) (b : Bool) :
    (TimingSession.addCharacter sess b).isRunning = sess.isRunning := rfl

/-- C2 counterexample: the round trip fails when the keystroke is the
final character of the text.  On the canonical text "a" (cursor 0, below
the text length), one character keystroke completes the test, so the
following backspace is a no-op and the cursor does not return to 0. -/
theorem char_backspace_roundtrip_counterexample :
    (handleKeyDown (handleKeyDown (initialState Mode.all ([ "a" ])) (Key.char 'a') 0)
        Key.backspace 1).currentPosition ≠
      (initialState Mode.all ([ "a" ])).currentPosition := by
  decide

/-- C2 (amended): for every non-complete session state whose cursor `p`
has at least two positions of text left (`p + 1 < length`, so the
keystroke does not complete the test) and whose log has no entry at the
cursor (as in every reachable state), one character keystroke followed
by one backspace returns the cursor and the keystroke log to exactly
their pre-keystroke values, while the timing session's `characterCount`
and `errorCount` keep their post-keystroke values: the character
increment is not reversed by the backspace. -/
theorem char_backspace_roundtrip (s : TestState) (c : Char) (t1 t2 : Int)
    (hc : s.isComplete = false)
    (hmid : s.currentPosition + 1 < s.text.length)
    (hnone : s.typedChars s.currentPosition = none) :
    (handleKeyDown (handleKeyDown s (Key.char c) t1) Key.backspace t2).currentPosition
        = s.currentPosition ∧
    (handleKeyDown (handleKeyDown s (Key.char c) t1) Key.backspace t2).typedChars
        = s.typedChars ∧
    (handleKeyDown s (Key.char c) t1).session.characterCount
        = s.session.characterCount + 1 ∧
    (handleKeyDown (handleKeyDown s (Key.char c) t1) Key.backspace t2).session.characterCount
        = (handleKeyDown s (Key.char c) t1).session.characterCount ∧
    (handleKeyDown (handleKeyDown s (Key.char c) t1) Key.backspace t2).session.errorCount
        = (handleKeyDown s (Key.char c) t1).session.errorCount := by
  have hmid' : (startIfIdle s t1).currentPosition + 1 < (startIfIdle s t1).text.length := by
    rw [startIfIdle_currentPosition, startIfIdle_text]; exact hmid
  have h1 : handleKeyDown s (Key.char c) t1 =
      { startIfIdle s t1 with
        currentPosition := (startIfIdle s t1).currentPosition + 1
        typedChars := mapSet (startIfIdle s t1).typedChars (startIfIdle s t1).currentPosition
          (c == (startIfIdle s t1).text.getD (startIfIdle s t1).currentPosition ' ')
        session := TimingSession.addCharacter (startIfIdle s t1).session
          (c == (startIfIdle s t1).text.getD (startIfIdle s t1).currentPosition ' ') } := by
    rw [handleKeyDown_char_eq s c t1 hc, charStep_mid _ c t1 (by omega)]
  have h1c : (handleKeyDown s (Key.char c) t1).isComplete = false := by
    rw [h1]; dsimp only; rw [startIfIdle_isComplete]; exact hc
  have h1run : (handleKeyDown s (Key.char c) t1).session.isRunning = true := by
    rw [h1]; dsimp only; rw [addCharacter_isRunning]
    exact startIfIdle_isRunning s t1 hc
  have h1pos : (handleKeyDown s (Key.char c) t1).currentPosition = s.currentPosition + 1 := by
    rw [h1]; dsimp only; rw [startIfIdle_currentPosition]
  have h1tc : (handleKeyDown s (Key.char c) t1).typedChars =
      mapSet s.typedChars s.currentPosition (c == s.text.getD s.currentPosition ' ') := by
    rw [h1]; dsimp only
    rw [startIfIdle_typedChars, startIfIdle_currentPosition, startIfIdle_text]
  have h2 : handleKeyDown (handleKeyDown s (Key.char c) t1) Key.backspace t2
      = backspaceStep (handleKeyDown s (Key.char c) t1) := by
    rw [handleKeyDown_backspace_eq _ t2 h1c, startIfIdle_of_running _ t2 h1run]
  have h3 : backspaceStep (handleKeyDown s (Key.char c) t1) =
      { handleKeyDown s (Key.char c) t1 with
        currentPosition := (handleKeyDown s (Key.char c) t1).currentPosition - 1
        typedChars := mapDelete (handleKeyDown s (Key.char c) t1).typedChars
          ((handleKeyDown s (Key.char c) t1).currentPosition - 1) } :=
    backspaceStep_of_pos _ (by rw [h1pos]; omega)
  have hsess : (handleKeyDown (handleKeyDown s (Key.char c) t1) Key.backspace t2).session
      = (handleKeyDown s (Key.char c) t1).session := by
    rw [h2]; exact (backspaceStep_frame _).2.2.2.1
  have hcc1 : (handleKeyDown s (Key.char c) t1).session.characterCount
      = s.session.characterCount + 1 := by
    rw [h1]; dsimp only [TimingSession.addCharacter]
    rw [startIfIdle_characterCount]
  refine ⟨?_, ?_, hcc1, by rw [hsess], by rw [hsess]⟩
  · rw [h2, h3]; dsimp only; rw [h1pos]; omega
  · rw [h2, h3]; dsimp only
    rw [h1pos, h1tc]
    funext q
    simp only [Nat.add_sub_cancel, mapDelete, mapSet]
    split
    · rename_i hq
      rw [hq]; exact hnone.symm
    · rfl

/-- Witness for C2 (amended) on the canonical text "ab cd" with an
incorrect first keystroke. -/
theorem char_backspace_roundtrip_witness :
    (handleKeyDown (handleKeyDown (initialState Mode.all ([ "ab", "cd" ])) (Key.char 'x') 0)
        Key.backspace 1).currentPosition
        = (initialState Mode.all ([ "ab", "cd" ])).currentPosition ∧
    (handleKeyDown (handleKeyDown (initialState Mode.all ([ "ab", "cd" ])) (Key.char 'x') 0)
        Key.backspace 1).typedChars
        = (initialState Mode.all ([ "ab", "cd" ])).typedChars ∧
    (handleKeyDown (initialState Mode.all ([ "ab", "cd" ])) (Key.char 'x') 0).session.characterCount
        = (initialState Mode.all ([ "ab", "cd" ])).session.characterCount + 1 ∧
    (handleKeyDown (handleKeyDown (initialState Mode.all ([ "ab", "cd" ])) (Key.char 'x') 0)
        Key.backspace 1).session.characterCount
        = (handleKeyDown (initialState Mode.all ([ "ab", "cd" ]))
            (Key.char 'x') 0).session.characterCount ∧
    (handleKeyDown (handleKeyDown (initialState Mode.all ([ "ab", "cd" ])) (Key.char 'x') 0)
        Key.backspace 1).session.errorCount
        = (handleKeyDown (initialState Mode.all ([ "ab", "cd" ]))
            (Key.char 'x') 0).session.errorCount :=
  char_backspace_roundtrip (initialState Mode.all ([ "ab", "cd" ])) 'x' 0 1
    rfl (by decide) rfl

/-- C10: every keystroke event, on every state, leaves the word list,
the canonical text, the mode, and the focus/loading/fetch-error flags
unchanged: only the cursor, the keystroke log, the timing session and
the completion flag can differ between the reducer's input and output. -/
theorem handleKeyDown_frame (s : TestState) (k : Key) (now : Int) :
    (handleKeyDown s k now).words = s.words ∧
    (handleKeyDown s k now).text = s.text ∧
    (handleKeyDown s k now).mode = s.mode ∧
    (handleKeyDown s k now).isFocused = s.isFocused ∧
    (handleKeyDown s k now).isLoading = s.isLoading ∧
    (handleKeyDown s k now).fetchError = s.fetchError := by
  by_cases hc : s.isComplete = true
  · rw [handleKeyDown_of_complete s k now hc]
    exact ⟨rfl, rfl, rfl, rfl, rfl, rfl⟩
  · have hc' : s.isComplete = false := by
      revert hc; cases s.isComplete <;> simp
    cases k with
    | other =>
      rw [handleKeyDown_other_eq s now hc']
      exact ⟨startIfIdle_words s now, startIfIdle_text s now, startIfIdle_mode s now,
        startIfIdle_isFocused s now, startIfIdle_isLoading s now, startIfIdle_fetchError s now⟩
    | backspace =>
      rw [handleKeyDown_backspace_eq s now hc']
      have hb := backspaceStep_frame (startIfIdle s now)
      exact ⟨hb.2.1.trans (startIfIdle_words s now), hb.2.2.1.trans (startIfIdle_text s now),
        hb.1.trans (startIfIdle_mode s now), hb.2.2.2.2.2.1.trans (startIfIdle_isFocused s now),
        hb.2.2.2.2.2.2.1.trans (startIfIdle_isLoading s now),
        hb.2.2.2.2.2.2.2.trans (startIfIdle_fetchError s now)⟩
    | char c =>
      rw [handleKeyDown_char_eq s c now hc']
      have hch := charStep_frame (startIfIdle s now) c now
      exact ⟨hch.2.1.trans (startIfIdle_words s now), hch.2.2.1.trans (startIfIdle_text s now),
        hch.1.trans (startIfIdle_mode s now), hch.2.2.2.1.trans (startIfIdle_isFocused s now),
        hch.2.2.2.2.1.trans (startIfIdle_isLoading s now),
        hch.2.2.2.2.2.trans (startIfIdle_fetchError s now)⟩

/-- C8 counterexample: `TimingSession.start` on an already-running
session (started at time 0, called again at time 1) does reset
`startTime` — the session's start timestamp does not survive the call. -/
theorem start_on_running_resets_startTime :
    (TimingSession.start
        { isRunning := true, startTime := some 0, endTime := none,
          characterCount := 0, errorCount := 0 } 1).startTime ≠
      ({ isRunning := true, startTime := some 0, endTime := none,
          characterCount := 0, errorCount := 0 } : TimingSessionState).startTime := by
  decide

/-- C8 (amended): `TimingSession.start` itself always stamps `startTime`
with the current clock, so calling it on a running session would reset
the timestamp; elapsed-time integrity is preserved by the core's guard
instead — the reducer invokes `start` only when `isRunning` is false, so
on every state whose session is already running, every keystroke event
leaves `startTime` unchanged. -/
theorem reducer_preserves_startTime_when_running (s : TestState) (k : Key) (now : Int)
    (h : s.session.isRunning = true) :
    (handleKeyDown s k now).session.startTime = s.session.startTime := by
  by_cases hc : s.isComplete = true
  · rw [handleKeyDown_of_complete s k now hc]
  · have hc' : s.isComplete = false := by
      revert hc; cases s.isComplete <;> simp
    have hidle : startIfIdle s now = s := startIfIdle_of_running s now h
    cases k with
    | other =>
      rw [handleKeyDown_other_eq s now hc', hidle]
    | backspace =>
      rw [handleKeyDown_backspace_eq s now hc', hidle,
        (backspaceStep_frame s).2.2.2.1]
    | char c =>
      rw [handleKeyDown_char_eq s c now hc', hidle]
      by_cases hend : s.currentPosition ≥ s.text.length
      · rw [charStep_of_end s c now hend]
      · by_cases hlast : s.currentPosition + 1 ≥ s.text.length
        · rw [charStep_complete s c now (by omega)]; rfl
        · rw [charStep_mid s c now (by omega)]; rfl

/-- Witness for C8 (amended): a running session's start timestamp
survives a further keystroke. -/
theorem reducer_preserves_startTime_when_running_witness :
    (handleKeyDown
        { initialState Mode.all ([ "ab" ]) with
          session := TimingSession.start TimingSession.create 0 }
        (Key.char 'z') 5).session.startTime =
      ({ initialState Mode.all ([ "ab" ]) with
          session := TimingSession.start TimingSession.create 0 } : TestState).session.startTime :=
  reducer_preserves_startTime_when_running
    { initialState Mode.all ([ "ab" ]) with
      session := TimingSession.start TimingSession.create 0 }
    (Key.char 'z') 5 rfl

/-- The word used for the left-hand classification scenario. -/
def stareWord : String := "stare"

/-- The word used for the second classification scenario. -/
def pinkWord : String := "pink"

/-- C9 counterexample: "pink" does not classify as "neither hand" — all
four of its letters (p, i, n, k) are right-hand keys, so
`isSingleHandWord` returns the right hand, not `none`. -/
theorem pink_is_not_mixed : isSingleHandWord pinkWord ≠ none := by
  decide

/-- C9 (amended): `isSingleHandWord` classifies "stare" as
left-hand-only and "pink" — whose letters are all right-hand keys — as
right-hand-only. -/
theorem single_hand_word_scenarios :
    isSingleHandWord stareWord = some Hand.left ∧
    isSingleHandWord pinkWord = some Hand.right := by
  constructor <;> decide

theorem round_le_round_of_le {x y : ℚ} (h : x ≤ y) : round x ≤ round y := by
  rw [round_eq, round_eq]
  exact Int.floor_le_floor (by linarith)

/-- C5: `calculateAccuracy(t, e)` fails with an error when `t = 0`; for
every `t > 0` and `e ≥ 0` it succeeds, its value is the claimed
`round(max(0, (t − e)/t × 100))` (the code's `max(0, round(...))`
coincides with it), and that value lies in `[0, 100]`. -/
theorem calculateAccuracy_spec (t e : Int) :
    (t = 0 → calculateAccuracy t e = Except.error ⟨ "Total characters must be positive" ⟩) ∧
    (0 < t → 0 ≤ e →
      calculateAccuracy t e =
        Except.ok (round (max 0 (((t : ℚ) - (e : ℚ)) / (t : ℚ) * 100))) ∧
      0 ≤ round (max 0 (((t : ℚ) - (e : ℚ)) / (t : ℚ) * 100)) ∧
      round (max 0 (((t : ℚ) - (e : ℚ)) / (t : ℚ) * 100)) ≤ 100) := by
  constructor
  · intro h
    unfold calculateAccuracy
    rw [if_pos h]
  · intro ht he
    have hne : ¬ t = 0 := by omega
    have ht' : (0 : ℚ) < (t : ℚ) := by exact_mod_cast ht
    have he' : (0 : ℚ) ≤ (e : ℚ) := by exact_mod_cast he
    have hx : ((t : ℚ) - (e : ℚ)) / (t : ℚ) * 100 ≤ 100 := by
      have h1 : ((t : ℚ) - (e : ℚ)) / (t : ℚ) ≤ 1 := by
        rw [div_le_one ht']
        linarith
      nlinarith
    have hswap : max 0 (round (((t : ℚ) - (e : ℚ)) / (t : ℚ) * 100)) =
        round (max 0 (((t : ℚ) - (e : ℚ)) / (t : ℚ) * 100)) := by
      rcases le_or_lt 0 (((t : ℚ) - (e : ℚ)) / (t : ℚ) * 100) with hpos | hneg
      · rw [max_eq_right hpos]
        have h0 : (0 : ℤ) ≤ round (((t : ℚ) - (e : ℚ)) / (t : ℚ) * 100) := by
          have := round_le_round_of_le hpos
          simpa using this
        rw [max_eq_right h0]
      · rw [max_eq_left (le_of_lt hneg), round_zero]
        have h0 : round (((t : ℚ) - (e : ℚ)) / (t : ℚ) * 100) ≤ 0 := by
          have := round_le_round_of_le (le_of_lt hneg)
          simpa using this
        rw [max_eq_left h0]
    refine ⟨?_, ?_, ?_⟩
    · unfold calculateAccuracy
      rw [if_neg hne]
      dsimp only
      rw [hswap]
    · rw [← hswap]
      exact le_max_left 0 _
    · rw [← hswap]
      have hr : round (((t : ℚ) - (e : ℚ)) / (t : ℚ) * 100) ≤ 100 := by
        have := round_le_round_of_le hx
        simpa using this
      exact max_le (by norm_num) hr

/-- Witness for C5 at `t = 5, e = 1` (success case) and `t = 0, e = 3`
(failure case). -/
theorem calculateAccuracy_spec_witness :
    calculateAccuracy 0 3 = Except.error ⟨ "Total characters must be positive" ⟩ ∧
    calculateAccuracy 5 1 =
      Except.ok (round (max 0 (((5 : ℚ) - (1 : ℚ)) / (5 : ℚ) * 100))) ∧
    0 ≤ round (max 0 (((5 : ℚ) - (1 : ℚ)) / (5 : ℚ) * 100)) ∧
    round (max 0 (((5 : ℚ) - (1 : ℚ)) / (5 : ℚ) * 100)) ≤ 100 := by
  have h0 := (calculateAccuracy_spec 0 3).1 rfl
  have h5 := (calculateAccuracy_spec 5 1).2 (by norm_num) (by norm_num)
  exact ⟨h0, by exact_mod_cast h5.1, by exact_mod_cast h5.2.1, by exact_mod_cast h5.2.2⟩

/-- C6: `calculateWPM(c, d)` fails with a duration error for every
`d ≤ 0`; for `d > 0` it returns exactly 0 when `c = 0` (the zero branch
precedes the division in the definition, mirroring the source's early
return), and `round((c/5) / (d/60000))` otherwise. -/
theorem calculateWPM_spec (c d : Int) :
    (d ≤ 0 → calculateWPM c d = Except.error ⟨ "Duration must be positive" ⟩) ∧
    (0 < d → c = 0 → calculateWPM c d = Except.ok 0) ∧
    (0 < d → c ≠ 0 → calculateWPM c d =
      Except.ok (round (((c : ℚ) / CHARS_PER_WORD) / ((d : ℚ) / 60000)))) := by
  refine ⟨?_, ?_, ?_⟩
  · intro h
    unfold calculateWPM
    rw [if_pos h]
  · intro hd hc
    unfold calculateWPM
    rw [if_neg (by omega), if_pos hc]
  · intro hd hc
    unfold calculateWPM
    rw [if_neg (by omega), if_neg hc]

/-- Witness for C6 at `d = 0` (failure), `c = 0, d = 7` (zero branch)
and `c = 5, d = 1000` (formula branch). -/
theorem calculateWPM_spec_witness :
    calculateWPM 5 0 = Except.error ⟨ "Duration must be positive" ⟩ ∧
    calculateWPM 0 7 = Except.ok 0 ∧
    calculateWPM 5 1000 =
      Except.ok (round ((((5 : ℤ) : ℚ) / CHARS_PER_WORD) / (((1000 : ℤ) : ℚ) / 60000))) := by
  have h1 := (calculateWPM_spec 5 0).1 (by norm_num)
  have h2 := (calculateWPM_spec 0 7).2.1 (by norm_num) rfl
  have h3 := (calculateWPM_spec 5 1000).2.2 (by norm_num) (by norm_num)
  exact ⟨h1, h2, h3⟩

/-- C7: with the duration fixed and positive, `calculateWPM` succeeds on
all positive character counts and its value is monotonically increasing
in the character count; with the character count fixed and positive, its
value is monotonically decreasing in the duration. -/
theorem calculateWPM_monotone :
    (∀ d c1 c2 : Int, 0 < d → 0 < c1 → c1 ≤ c2 →
      calculateWPM c1 d = Except.ok (round (((c1 : ℚ) / CHARS_PER_WORD) / ((d : ℚ) / 60000))) ∧
      calculateWPM c2 d = Except.ok (round (((c2 : ℚ) / CHARS_PER_WORD) / ((d : ℚ) / 60000))) ∧
      round (((c1 : ℚ) / CHARS_PER_WORD) / ((d : ℚ) / 60000)) ≤
        round (((c2 : ℚ) / CHARS_PER_WORD) / ((d : ℚ) / 60000))) ∧
    (∀ c d1 d2 : Int, 0 < c → 0 < d1 → d1 ≤ d2 →
      calculateWPM c d1 = Except.ok (round (((c : ℚ) / CHARS_PER_WORD) / ((d1 : ℚ) / 60000))) ∧
      calculateWPM c d2 = Except.ok (round (((c : ℚ) / CHARS_PER_WORD) / ((d2 : ℚ) / 60000))) ∧
      round (((c : ℚ) / CHARS_PER_WORD) / ((d2 : ℚ) / 60000)) ≤
        round (((c : ℚ) / CHARS_PER_WORD) / ((d1 : ℚ) / 60000))) := by
  have hformula : ∀ c d : Int, 0 < d → c ≠ 0 → calculateWPM c d =
      Except.ok (round (((c : ℚ) / CHARS_PER_WORD) / ((d : ℚ) / 60000))) := by
    intro c d hd hc
    unfold calculateWPM
    rw [if_neg (by omega), if_neg hc]
  constructor
  · intro d c1 c2 hd hc1 hc12
    have hc1' : (0 : ℚ) < (c1 : ℚ) := by exact_mod_cast hc1
    have hc12' : (c1 : ℚ) ≤ (c2 : ℚ) := by exact_mod_cast hc12
    have hd' : (0 : ℚ) < (d : ℚ) := by exact_mod_cast hd
    refine ⟨hformula c1 d hd (by omega), hformula c2 d hd (by omega), ?_⟩
    apply round_le_round_of_le
    unfold CHARS_PER_WORD
    gcongr
  · intro c d1 d2 hc hd1 hd12
    have hc' : (0 : ℚ) < (c : ℚ) := by exact_mod_cast hc
    have hd1' : (0 : ℚ) < (d1 : ℚ) := by exact_mod_cast hd1
    have hd12' : (d1 : ℚ) ≤ (d2 : ℚ) := by exact_mod_cast hd12
    refine ⟨hformula c d1 hd1 (by omega), hformula c d2 (by omega) (by omega), ?_⟩
    apply round_le_round_of_le
    unfold CHARS_PER_WORD
    gcongr

/-- Witness for C7: increasing counts at fixed duration, and increasing
durations at fixed count. -/
theorem calculateWPM_monotone_witness :
    (calculateWPM 5 1000 =
        Except.ok (round ((((5 : ℤ) : ℚ) / CHARS_PER_WORD) / (((1000 : ℤ) : ℚ) / 60000))) ∧
      calculateWPM 9 1000 =
        Except.ok (round ((((9 : ℤ) : ℚ) / CHARS_PER_WORD) / (((1000 : ℤ) : ℚ) / 60000))) ∧
      round ((((5 : ℤ) : ℚ) / CHARS_PER_WORD) / (((1000 : ℤ) : ℚ) / 60000)) ≤
        round ((((9 : ℤ) : ℚ) / CHARS_PER_WORD) / (((1000 : ℤ) : ℚ) / 60000))) ∧
    (calculateWPM 5 1000 =
        Except.ok (round ((((5 : ℤ) : ℚ) / CHARS_PER_WORD) / (((1000 : ℤ) : ℚ) / 60000))) ∧
      calculateWPM 5 2000 =
        Except.ok (round ((((5 : ℤ) : ℚ) / CHARS_PER_WORD) / (((2000 : ℤ) : ℚ) / 60000))) ∧
      round ((((5 : ℤ) : ℚ) / CHARS_PER_WORD) / (((2000 : ℤ) : ℚ) / 60000)) ≤
        round ((((5 : ℤ) : ℚ) / CHARS_PER_WORD) / (((1000 : ℤ) : ℚ) / 60000))) := by
  have h1 := calculateWPM_monotone.1 1000 5 9 (by norm_num) (by norm_num) (by norm_num)
  have h2 := calculateWPM_monotone.2 5 1000 2000 (by norm_num) (by norm_num) (by norm_num)
  exact ⟨h1, h2⟩


/-- Processing a list of single-character events that all match the
expected text adds the list's length to `characterCount` and leaves
`errorCount` unchanged. -/
theorem process_correct_counts :
    ∀ (evs : List (Char × Int)) (s : TestState),
      s.isComplete = false →
      s.currentPosition + evs.length = s.text.length →
      (∀ i, i < evs.length →
        ((evs.getD i (' ', 0)).1 == s.text.getD (s.currentPosition + i) ' ') = true) →
      (processEvents s (evs.map fun p => (Key.char p.1, p.2))).session.characterCount
          = s.session.characterCount + evs.length ∧
      (processEvents s (evs.map fun p => (Key.char p.1, p.2))).session.errorCount
          = s.session.errorCount := by
  intro evs
  induction evs with
  | nil => intro s _ _ _; exact ⟨rfl, rfl⟩
  | cons e rest ih =>
    intro s hc hlen hcor
    have hstep :
        processEvents s (((e :: rest).map fun p => (Key.char p.1, p.2))) =
          processEvents (handleKeyDown s (Key.char e.1) e.2)
            (rest.map fun p => (Key.char p.1, p.2)) := rfl
    rw [hstep, handleKeyDown_char_eq s e.1 e.2 hc]
    have hpos := startIfIdle_currentPosition s e.2
    have htext := startIfIdle_text s e.2
    have hb : (e.1 ==
        (startIfIdle s e.2).text.getD (startIfIdle s e.2).currentPosition ' ') = true := by
      rw [hpos, htext]
      have h0 := hcor 0 (by simp)
      simpa using h0
    cases rest with
    | nil =>
      have hone : (startIfIdle s e.2).currentPosition + 1 =
          (startIfIdle s e.2).text.length := by
        rw [hpos, htext]; simpa using hlen
      rw [charStep_complete _ e.1 e.2 hone]
      constructor
      · show (TimingSession.stop (TimingSession.addCharacter _ _) _).characterCount = _
        dsimp only [TimingSession.stop, TimingSession.addCharacter]
        rw [startIfIdle_characterCount]
        rfl
      · show (TimingSession.stop (TimingSession.addCharacter _ _) _).errorCount = _
        dsimp only [TimingSession.stop, TimingSession.addCharacter]
        rw [hb]
        simpa using startIfIdle_errorCount s e.2
    | cons e2 rest2 =>
      have hmid : (startIfIdle s e.2).currentPosition + 1 <
          (startIfIdle s e.2).text.length := by
        rw [hpos, htext]
        simp only [List.length_cons] at hlen
        omega
      rw [charStep_mid _ e.1 e.2 hmid]
      have hic : (startIfIdle s e.2).isComplete = false := by
        rw [startIfIdle_isComplete]; exact hc
      have h := ih
        { startIfIdle s e.2 with
          currentPosition := (startIfIdle s e.2).currentPosition + 1
          typedChars := mapSet (startIfIdle s e.2).typedChars
            (startIfIdle s e.2).currentPosition
            (e.1 == (startIfIdle s e.2).text.getD (startIfIdle s e.2).currentPosition ' ')
          session := TimingSession.addCharacter (startIfIdle s e.2).session
            (e.1 == (startIfIdle s e.2).text.getD (startIfIdle s e.2).currentPosition ' ') }
        hic
        (by
          show (startIfIdle s e.2).currentPosition + 1 + (e2 :: rest2).length =
            (startIfIdle s e.2).text.length
          rw [hpos, htext]
          simp only [List.length_cons] at hlen ⊢
          omega)
        (by
          intro i hi
          show (((e2 :: rest2).getD i (' ', 0)).1 ==
            (startIfIdle s e.2).text.getD ((startIfIdle s e.2).currentPosition + 1 + i) ' ')
              = true
          rw [hpos, htext]
          have hsucc := hcor (i + 1) (by simpa using Nat.succ_lt_succ hi)
          have hidx : s.currentPosition + (i + 1) = s.currentPosition + 1 + i := by omega
          rw [List.getD_cons_succ] at hsucc
          rw [← hidx]
          exact hsucc)
      constructor
      · rw [h.1]
        show (TimingSession.addCharacter _ _).characterCount + _ = _
        dsimp only [TimingSession.addCharacter]
        rw [startIfIdle_characterCount]
        simp only [List.length_cons]
        omega
      · rw [h.2]
        show (TimingSession.addCharacter _ _).errorCount = _
        dsimp only [TimingSession.addCharacter]
        rw [hb]
        simpa using startIfIdle_errorCount s e.2

/-- When no errors were recorded, the component's net WPM coincides with
its gross WPM (they run the same formula on the same inputs). -/
theorem net_eq_gross_of_no_errors (s : TestState) (now : Int)
    (h : s.session.errorCount = 0) : netWpm s now = grossWpm s now := by
  unfold netWpm grossWpm correctChars
  rw [h]
  simp only [Nat.cast_zero, sub_zero]
  by_cases hc : 0 < s.session.characterCount
  · rw [if_pos (show (0 : ℤ) < (s.session.characterCount : ℤ) from by exact_mod_cast hc),
      if_pos hc]
  · rw [if_neg (show ¬ (0 : ℤ) < (s.session.characterCount : ℤ) from by exact_mod_cast hc),
      if_neg hc]

/-- C4: the separator is matched literally like any other character.  On
the canonical text "ab cd" (length 5), the five keystrokes 'a', 'b',
' ', 'c', 'd' from the fresh state — at arbitrary event times — yield
cursor 5, a complete test, 5 counted characters, 0 errors, and a net WPM
equal to the gross WPM at any display time. -/
theorem space_matched_literally_scenario (t1 t2 t3 t4 t5 now : Int) :
    (processEvents (initialState Mode.all ([ "ab", "cd" ]))
        ([ (Key.char 'a', t1), (Key.char 'b', t2), (Key.char ' ', t3),
           (Key.char 'c', t4), (Key.char 'd', t5) ])).currentPosition = 5 ∧
    (processEvents (initialState Mode.all ([ "ab", "cd" ]))
        ([ (Key.char 'a', t1), (Key.char 'b', t2), (Key.char ' ', t3),
           (Key.char 'c', t4), (Key.char 'd', t5) ])).isComplete = true ∧
    (processEvents (initialState Mode.all ([ "ab", "cd" ]))
        ([ (Key.char 'a', t1), (Key.char 'b', t2), (Key.char ' ', t3),
           (Key.char 'c', t4), (Key.char 'd', t5) ])).session.characterCount = 5 ∧
    (processEvents (initialState Mode.all ([ "ab", "cd" ]))
        ([ (Key.char 'a', t1), (Key.char 'b', t2), (Key.char ' ', t3),
           (Key.char 'c', t4), (Key.char 'd', t5) ])).session.errorCount = 0 ∧
    netWpm (processEvents (initialState Mode.all ([ "ab", "cd" ]))
        ([ (Key.char 'a', t1), (Key.char 'b', t2), (Key.char ' ', t3),
           (Key.char 'c', t4), (Key.char 'd', t5) ])) now =
      grossWpm (processEvents (initialState Mode.all ([ "ab", "cd" ]))
        ([ (Key.char 'a', t1), (Key.char 'b', t2), (Key.char ' ', t3),
           (Key.char 'c', t4), (Key.char 'd', t5) ])) now := by
  have hmap : (([ ('a', t1), ('b', t2), (' ', t3), ('c', t4), ('d', t5) ] :
      List (Char × Int)).map fun p => (Key.char p.1, p.2)) =
      [ (Key.char 'a', t1), (Key.char 'b', t2), (Key.char ' ', t3),
        (Key.char 'c', t4), (Key.char 'd', t5) ] := rfl
  have hcomp := processChars_drives_completion
    ([ ('a', t1), ('b', t2), (' ', t3), ('c', t4), ('d', t5) ])
    (initialState Mode.all ([ "ab", "cd" ])) rfl (by rfl) (by simp)
  have hcnt := process_correct_counts
    ([ ('a', t1), ('b', t2), (' ', t3), ('c', t4), ('d', t5) ])
    (initialState Mode.all ([ "ab", "cd" ])) rfl (by rfl)
    (by
      intro i hi
      simp only [List.length_cons, List.length_nil] at hi
      interval_cases i <;> rfl)
  rw [hmap] at hcomp hcnt
  refine ⟨?_, hcomp.1, ?_, ?_, ?_⟩
  · rw [hcomp.2.1]; rfl
  · rw [hcnt.1]; rfl
  · exact hcnt.2
  · exact net_eq_gross_of_no_errors _ now (by rw [hcnt.2]; rfl)
